import Mathlib

/-!
Verification of the redaction engine and diagnostic pipeline of the
`ai-network-ops-agent` repository (single source file `app.py`).

The development shallowly embeds:

* `sanitize_output` — the regex-rule sanitizer, embedded as a character-level
  substitution engine.  Each Python regex in the source's rule table is
  translated into a deterministic matcher over `List Char`.  For these
  particular patterns backtracking never changes the outcome (`\S+` and `\d+`
  followed by a literal must take a maximal run; `\d{1,3}` followed by `.` or
  a word boundary must take the whole digit run), so a deterministic matcher
  is faithful to Python `re` leftmost non-overlapping `re.sub` semantics.
  Word characters, whitespace and digits are the ASCII classes (the inputs of
  interest are ASCII device transcripts).
* `connect_and_fetch` — the SSH fetch routine, with the netmiko session as an
  explicit oracle and Python exceptions as an `Except` value.
* `ask_gemini_agent` and the post-button workflow of `main` — the analysis
  call with its catch-all error conversion.
-/

/-! ## Character classes (ASCII, as used by Python `re` on these inputs) -/

/-- Python `\w` (ASCII): letters, digits, underscore. -/
def isPyWord (c : Char) : Bool := c.isAlpha || c.isDigit || c = '_'

/-- Python whitespace (ASCII): the class complemented by `\S`. -/
def isPyWhite (c : Char) : Bool :=
  c = ' ' || c = '\t' || c = '\n' || c = '\r' || c = '\x0b' || c = '\x0c'

/-- Python `\S`. -/
def isPyNonWhite (c : Char) : Bool := !isPyWhite c

/-- Python `\d` (ASCII). -/
def isPyDigit (c : Char) : Bool := c.isDigit

/-- `[0-9A-Fa-f]`. -/
def isHexDigit (c : Char) : Bool :=
  c.isDigit || ('a' ≤ c && c ≤ 'f') || ('A' ≤ c && c ≤ 'F')

/-! ## Matching primitives -/

/-- Match a literal character sequence at the head of `s`, returning the rest. -/
def dropLit : List Char → List Char → Option (List Char)
  | [], s => some s
  | _ :: _, [] => none
  | c :: cs, d :: ds => if d = c then dropLit cs ds else none

/-- Greedy `p+`: the maximal non-empty run of characters satisfying `p`,
returning the run and the rest. -/
def grab1 (p : Char → Bool) (s : List Char) : Option (List Char × List Char) :=
  match s.takeWhile p with
  | [] => none
  | run => some (run, s.dropWhile p)

/-- Does `pat` occur at the head of `s`? -/
def startsL (pat s : List Char) : Bool := (dropLit pat s).isSome

/-- Does `pat` occur anywhere in `s` (Python `in` / substring test)? -/
def hasSub (pat : List Char) : List Char → Bool
  | [] => pat.isEmpty
  | c :: r => startsL pat (c :: r) || hasSub pat r

/-! ## The substitution engine

A rule is a function receiving the character just before the current scan
position (for word-boundary tests; `none` at the start of the text) and the
text from the current position on.  On a match it returns the replacement
text and the remainder of the input after the matched span.

`subF` is Python `re.sub`: scan left to right over the original text; at each
position try the rule; on a match emit the replacement and resume right after
the matched span (all the source's patterns consume at least one character,
so no empty-match handling is needed).  The fuel argument is only a
structural-recursion device; `runRule` supplies enough for the whole scan. -/

def RuleT : Type := Option Char → List Char → Option (List Char × List Char)

def subF (rule : RuleT) : Nat → Option Char → List Char → List Char
  | 0, _, s => s
  | _ + 1, _, [] => []
  | fuel + 1, prev, c :: cs =>
    match rule prev (c :: cs) with
    | some (rep, rest) =>
      let k := (c :: cs).length - rest.length
      rep ++ subF rule fuel ((c :: cs)[k - 1]?) rest
    | none => c :: subF rule fuel (some c) cs

/-- One full `re.sub(pattern, replacement, text)` pass for one rule. -/
def runRule (rule : RuleT) (s : List Char) : List Char :=
  subF rule (s.length + 1) none s

/-- Apply a rule list in order (the `for pattern, replacement in rules` loop). -/
def applyRules (rs : List RuleT) (s : List Char) : List Char :=
  rs.foldl (fun t r => runRule r t) s

/-! ## The rule table of `sanitize_output`

Source order:
1. `(password|secret) \d+ \S+`            → `\1 <HIDDEN_PASSWORD>`
2. `(encrypted password) \S+`             → `\1 <HIDDEN_PASSWORD>`
3. `(snmp-server community) \S+`          → `\1 <HIDDEN_COMMUNITY>`
4. `(username \S+ privilege \d+ secret \d+) \S+` → `\1 <HIDDEN_SECRET>`
5. `\b(?!(?:10|172\.(?:1[6-9]|2\d|3[01])|192\.168)\.)\d{1,3}\.(?:\d{1,3}\.){2}\d{1,3}\b`
                                          → `<MASKED_PUBLIC_IP>`
6. `([0-9A-Fa-f]{4}\.){2}[0-9A-Fa-f]{4}`  → `<MASKED_MAC>`
-/

/-- Rule 1, `(password|secret) \d+ \S+` → `\1 <HIDDEN_PASSWORD>`.
The alternation is decided by the first character; `\d+` and `\S+` each sit
before a literal space (or the pattern end), so each must take its maximal
run. -/
def rule_password_secret : RuleT := fun _ s => do
  let (kw, r1) ←
    match dropLit "password".toList s with
    | some r => some ("password".toList, r)
    | none =>
      match dropLit "secret".toList s with
      | some r => some ("secret".toList, r)
      | none => none
  let r2 ← dropLit [' '] r1
  let (_, r3) ← grab1 isPyDigit r2
  let r4 ← dropLit [' '] r3
  let (_, r5) ← grab1 isPyNonWhite r4
  some (kw ++ " <HIDDEN_PASSWORD>".toList, r5)

/-- Rule 2, `(encrypted password) \S+` → `\1 <HIDDEN_PASSWORD>`. -/
def rule_encrypted_password : RuleT := fun _ s => do
  let r1 ← dropLit "encrypted password ".toList s
  let (_, r2) ← grab1 isPyNonWhite r1
  some ("encrypted password <HIDDEN_PASSWORD>".toList, r2)

/-- Rule 3, `(snmp-server community) \S+` → `\1 <HIDDEN_COMMUNITY>`. -/
def rule_snmp_community : RuleT := fun _ s => do
  let r1 ← dropLit "snmp-server community ".toList s
  let (_, r2) ← grab1 isPyNonWhite r1
  some ("snmp-server community <HIDDEN_COMMUNITY>".toList, r2)

/-- Rule 4, `(username \S+ privilege \d+ secret \d+) \S+` → `\1 <HIDDEN_SECRET>`.
The group is reproduced in the replacement (`\1`), the trailing token hidden. -/
def rule_username_secret : RuleT := fun _ s => do
  let r1 ← dropLit "username ".toList s
  let (u, r2) ← grab1 isPyNonWhite r1
  let r3 ← dropLit " privilege ".toList r2
  let (d1, r4) ← grab1 isPyDigit r3
  let r5 ← dropLit " secret ".toList r4
  let (d2, r6) ← grab1 isPyDigit r5
  let r7 ← dropLit [' '] r6
  let (_, r8) ← grab1 isPyNonWhite r7
  some ("username ".toList ++ u ++ " privilege ".toList ++ d1 ++
        " secret ".toList ++ d2 ++ " <HIDDEN_SECRET>".toList, r8)

/-- The negative lookahead `(?:10|172\.(?:1[6-9]|2\d|3[01])|192\.168)\.`:
does a private-range prefix start here? -/
def isPrivAhead (s : List Char) : Bool :=
  (dropLit "10.".toList s).isSome ||
  (dropLit "192.168.".toList s).isSome ||
  (match dropLit "172.".toList s with
   | some (a :: b :: c :: _) =>
     ((a = '1' && '6' ≤ b && b ≤ '9') ||
      (a = '2' && b.isDigit) ||
      (a = '3' && (b = '0' || b = '1'))) && c = '.'
   | _ => false)

/-- `\d{1,3}\.`: a digit run of length 1–3 followed by `.` (a longer run
cannot match, since any shorter prefix is followed by a digit, not `.`). -/
def grpDot (s : List Char) : Option (List Char) := do
  let (ds, r) ← grab1 isPyDigit s
  if ds.length ≤ 3 then dropLit ['.'] r else none

/-- Rule 5, the public-IP mask
`\b(?!(?:10|172\.(?:1[6-9]|2\d|3[01])|192\.168)\.)\d{1,3}\.(?:\d{1,3}\.){2}\d{1,3}\b`
→ `<MASKED_PUBLIC_IP>`.  The first matched character is a digit (a word
character), so the leading `\b` holds iff the previous character is absent or
a non-word character; the last matched character is a digit, so the trailing
`\b` holds iff the next character is absent or a non-word character. -/
def rule_public_ip : RuleT := fun prev s => do
  match prev with
  | none => some ()
  | some p => if isPyWord p then none else some ()
  if isPrivAhead s then none
  else do
    let r1 ← grpDot s
    let r2 ← grpDot r1
    let r3 ← grpDot r2
    let (ds, r4) ← grab1 isPyDigit r3
    if ds.length ≤ 3 then
      match r4 with
      | [] => some ("<MASKED_PUBLIC_IP>".toList, r4)
      | c :: _ =>
        if isPyWord c then none else some ("<MASKED_PUBLIC_IP>".toList, r4)
    else none

/-- `[0-9A-Fa-f]{4}`: exactly four hex digits. -/
def grab4Hex (s : List Char) : Option (List Char) :=
  match s with
  | a :: b :: c :: d :: r =>
    if isHexDigit a && isHexDigit b && isHexDigit c && isHexDigit d then some r
    else none
  | _ => none

/-- Rule 6, `([0-9A-Fa-f]{4}\.){2}[0-9A-Fa-f]{4}` → `<MASKED_MAC>`
(dot-grouped Cisco-style hardware address). -/
def rule_mac : RuleT := fun _ s => do
  let r1 ← grab4Hex s
  let r2 ← dropLit ['.'] r1
  let r3 ← grab4Hex r2
  let r4 ← dropLit ['.'] r3
  let r5 ← grab4Hex r4
  some ("<MASKED_MAC>".toList, r5)

/-- The rule list of `sanitize_output`, in source order. -/
def rules : List RuleT :=
  [rule_password_secret, rule_encrypted_password, rule_snmp_community,
   rule_username_secret, rule_public_ip, rule_mac]

/-- `sanitize_output(text)`: apply every rule, in order, by `re.sub`. -/
def sanitize_output (text : String) : String :=
  String.mk (applyRules rules text.toList)

/-! ## `connect_and_fetch`

The netmiko session is embedded as an oracle: the `ConnectHandler(**SANDBOX_DEVICE)`
call either yields a session or raises, and each session method either yields
a string or raises.  Python exceptions are `Except` errors; the two netmiko
exception classes named in the first `except` clause are distinguished from
every other exception.  The `time.sleep(0.5)` pacing call has no effect on
the returned data and is not represented. -/

/-- A raised Python exception, as caught by `connect_and_fetch`. -/
inductive PyExc where
  | netmikoTimeout (msg : String)
  | netmikoAuth (msg : String)
  | generic (msg : String)
deriving DecidableEq

/-- `str(e)`. -/
def PyExc.msg : PyExc → String
  | .netmikoTimeout m => m
  | .netmikoAuth m => m
  | .generic m => m

/-- Does the exception match `except (NetmikoTimeoutException, NetmikoAuthenticationException)`? -/
def PyExc.isNetmiko : PyExc → Bool
  | .netmikoTimeout _ => true
  | .netmikoAuth _ => true
  | .generic _ => false

/-- The live SSH session object (`ssh` in the `with` block). -/
structure Ssh where
  find_prompt : Except PyExc String
  send_command : String → Except PyExc String

/-- The fixed NX-OS command list of `connect_and_fetch`. -/
def commands : List String :=
  ["terminal length 0", "show version", "show interface brief", "show ip route"]

/-- `'='*30`. -/
def barLine : String := String.mk (List.replicate 30 '=')

/-- The per-command transcript block `f"\n{'='*30}\n[Command] {cmd}\n{output}\n"`. -/
def cmdBlock (cmd output : String) : String :=
  "\n" ++ barLine ++ "\n[Command] " ++ cmd ++ "\n" ++ output ++ "\n"

/-- The `try` body of `connect_and_fetch` up to the end of the `with` block:
open the session, read the prompt banner, then issue each command in list
order, accumulating `raw_output`.  Any raised exception aborts the loop. -/
def fetchRaw (conn : Except PyExc Ssh) : Except PyExc String := do
  let ssh ← conn
  let prompt ← ssh.find_prompt
  commands.foldlM
    (fun acc cmd => do
      let output ← ssh.send_command cmd
      pure (acc ++ cmdBlock cmd output))
    ("Connected to: " ++ prompt ++ "\n")

/-- The dict returned by `connect_and_fetch`: either
`{"success": True, "raw": …, "sanitized": …}` or
`{"success": False, "error": …}`. -/
inductive FetchResult where
  | ok (raw sanitized : String)
  | fail (error : String)
deriving DecidableEq

/-- `connect_and_fetch()`: on success sanitize the transcript; the two netmiko
exception classes become a `Network Error`, any other exception a
`System Error`. -/
def connect_and_fetch (conn : Except PyExc Ssh) : FetchResult :=
  match fetchRaw conn with
  | .ok raw => .ok raw (sanitize_output raw)
  | .error e =>
    if e.isNetmiko then .fail ("Network Error: " ++ e.msg)
    else .fail ("System Error: " ++ e.msg)

/-! ## `ask_gemini_agent`

The Gemini client is embedded as an oracle `generate_content` from the
composed prompt to either a response text or a raised exception message. -/

/-- The fixed prompt template of `ask_gemini_agent`, before the embedded log. -/
def geminiHead : String := "\n    あなたはデータセンターネットワークのスペシャリストAIです。\n    以下はCisco Nexus (NX-OS) スイッチから取得・サニタイズされたステータスログです。\n    これを分析し、以下のフォーマットでレポートを作成してください。\n\n    ### 🛡️ Nexus 自動診断レポート\n    **判定**: [ 正常 / 注意 / 異常 ] から選択\n    \n    **1. デバイス概要**\n    *   NX-OSバージョン、稼働時間(Uptime)、プラットフォーム(Chassis)を簡潔に。\n    \n    **2. インターフェース状態**\n    *   接続されている主要なインターフェース(Eth1/1など)のステータス(up/down)を確認。\n    *   VLANや管理ポート(mgmt0)の状態について言及。\n    \n    **3. ルーティング状況**\n    *   認識されているルート数や、デフォルトゲートウェイの有無。\n    \n    **4. 考察と推奨アクション**\n    *   ログから読み取れるネットワークの健全性と、もしあれば追加確認すべきコマンド。\n\n    --- Log Data Start ---\n    "

/-- The fixed prompt template after the embedded log. -/
def geminiTail : String := "\n    --- Log Data End ---\n    "

/-- The composed prompt `f"…{sanitized_log}…"`. -/
def geminiPrompt (sanitized_log : String) : String :=
  geminiHead ++ sanitized_log ++ geminiTail

/-- The config-error string returned when the API key is the placeholder. -/
def keyErrorText : String :=
  "⚠️ エラー: ソースコード内の `GOOGLE_API_KEY` に正しいAPIキーを設定してください。"

/-- `ask_gemini_agent(sanitized_log)`, with the module-level `GOOGLE_API_KEY`
and the Gemini call as parameters.  Any exception from the service call is
caught and converted into an error-carrying string; the function never
raises. -/
def ask_gemini_agent (google_api_key : String)
    (generate_content : String → Except String String)
    (sanitized_log : String) : String :=
  if hasSub "YOUR_GEMINI_API_KEY".toList google_api_key.toList then
    keyErrorText
  else
    match generate_content (geminiPrompt sanitized_log) with
    | .ok text => text
    | .error e => "🤖 AI Agent Error: " ++ e

/-! ## The workflow of `main` after the start button

On a failed fetch the run stops showing only the error (`return` after
`st.error`).  On a successful fetch the analysis is requested and the raw
transcript, the sanitized transcript and the analysis text are all stored in
the session state and rendered in the three result tabs. -/

/-- The terminal state of one diagnostic run. -/
inductive RunOutcome where
  | connFailed (error : String)
  | completed (raw sanitized ai_response : String)
deriving DecidableEq

/-- One end-to-end run of the button workflow in `main`. -/
def runDiagnostics (conn : Except PyExc Ssh) (google_api_key : String)
    (generate_content : String → Except String String) : RunOutcome :=
  match connect_and_fetch conn with
  | .fail e => .connFailed e
  | .ok raw sanitized =>
    .completed raw sanitized (ask_gemini_agent google_api_key generate_content sanitized)

/-- The report verdict categories of the specification. -/
inductive Verdict where
  | NORMAL | WARNING | CRITICAL | UNKNOWN
deriving DecidableEq

/-- The diagnostic report shown to the operator. -/
structure Report where
  verdict : Verdict
  narrative : String
deriving DecidableEq

/-- Modelled from the spec: the source has no explicit `DiagnosticReport`
value — `main` renders the analysis string directly — so the report entity is
taken from the specification: its narrative is the text produced by
`ask_gemini_agent`, its verdict is the verdict keyword expected near the top
of a successful response (`判定: 正常/注意/異常`), and it is `UNKNOWN`
whenever the analysis stage did not complete (placeholder API key, or the
service call raised). -/
def analysisReport (google_api_key : String)
    (generate_content : String → Except String String)
    (sanitized_log : String) : Report :=
  let text := ask_gemini_agent google_api_key generate_content sanitized_log
  if hasSub "YOUR_GEMINI_API_KEY".toList google_api_key.toList then
    { verdict := .UNKNOWN, narrative := text }
  else
    match generate_content (geminiPrompt sanitized_log) with
    | .ok _ =>
      { verdict :=
          if hasSub "正常".toList text.toList then .NORMAL
          else if hasSub "注意".toList text.toList then .WARNING
          else if hasSub "異常".toList text.toList then .CRITICAL
          else .UNKNOWN,
        narrative := text }
    | .error _ => { verdict := .UNKNOWN, narrative := text }

/-! ## Transcript-structure extraction (for the ordering property)

`cmdHeaders` recovers, from a raw transcript, the list of commands named on
`[Command] ` header lines, in textual order. -/

/-- Split a character list at newlines (every text has at least one line). -/
def linesOf : List Char → List (List Char)
  | [] => [[]]
  | c :: r =>
    if c = '\n' then [] :: linesOf r
    else
      match linesOf r with
      | [] => [[c]]
      | l :: ls => (c :: l) :: ls

/-- The command named by a `[Command] ` header line, if this line is one. -/
def headerOf (l : List Char) : Option (List Char) :=
  dropLit "[Command] ".toList l

/-- All commands named on header lines, in textual order. -/
def cmdHeaders (s : List Char) : List (List Char) :=
  (linesOf s).filterMap headerOf

/-- The character-level form of the transcript banner `f"Connected to: {prompt}\n"`. -/
def bannerChars (p : List Char) : List Char :=
  "Connected to: ".toList ++ p ++ ['\n']

/-- The character-level form of `cmdBlock`. -/
def charBlock (c : String) (o : List Char) : List Char :=
  '\n' :: (barLine.toList ++ '\n' :: ("[Command] ".toList ++ c.toList ++
    '\n' :: (o ++ ['\n'])))

/-- A dotted quad as a character list: four groups separated by `.`. -/
def quadChars (g1 g2 g3 g4 : List Char) : List Char :=
  g1 ++ '.' :: (g2 ++ '.' :: (g3 ++ '.' :: g4))

/-- A well-formed quad group: one to three digits. -/
def groupOk (g : List Char) : Prop :=
  g ≠ [] ∧ g.length ≤ 3 ∧ ∀ c ∈ g, isPyDigit c = true

/-! ## Concrete fixtures (used by witnesses) -/

/-- A transposition of the declared rule list: the two password rules swapped,
the remaining rules in place. -/
def rulesSwapped : List RuleT :=
  [rule_encrypted_password, rule_password_secret, rule_snmp_community,
   rule_username_secret, rule_public_ip, rule_mac]

/-- A fully healthy session: fixed prompt, every command succeeds with empty
output. -/
def sshOk : Ssh := { find_prompt := .ok "switch#", send_command := fun _ => .ok "" }

/-- A session that times out on the second command of the sequence. -/
def sshFail2 : Ssh :=
  { find_prompt := .ok "switch#",
    send_command := fun c =>
      if c = "terminal length 0" then .ok "output disabled"
      else .error (.netmikoTimeout "Read timed out") }

/-- The raw transcript produced by `sshOk`. -/
def rawOk : String :=
  "Connected to: switch#\n\n==============================\n[Command] terminal length 0\n\n\n==============================\n[Command] show version\n\n\n==============================\n[Command] show interface brief\n\n\n==============================\n[Command] show ip route\n\n"

/-- A Gemini call that always raises (service unreachable). -/
def genFail : String → Except String String := fun _ => .error "503 quota exceeded"

/-! ## Theorems -/

/-- C1: As stated, idempotence fails: on `"aaaa.bbbb.cccc1.2.3.4"` the first
pass replaces only the hardware address, and the second pass additionally
masks the then word-boundary-exposed dotted quad, so applying the full rule
set twice differs from applying it once. -/
theorem sanitize_not_idempotent :
    sanitize_output (sanitize_output "aaaa.bbbb.cccc1.2.3.4") ≠
      sanitize_output "aaaa.bbbb.cccc1.2.3.4" := by
  decide

/-- C1 (amended): sanitization is not idempotent for every input — the
hardware-address rule is applied after the public-IP rule, and its
replacement can expose a word boundary before a dotted quad that only a
second pass masks (`"aaaa.bbbb.cccc1.2.3.4"` → `"<MASKED_MAC>1.2.3.4"` →
`"<MASKED_MAC><MASKED_PUBLIC_IP>"`).  On the specification's concrete
scenario inputs, applying the rule set twice equals applying it once. -/
theorem sanitize_idempotent_amended :
    sanitize_output "aaaa.bbbb.cccc1.2.3.4" = "<MASKED_MAC>1.2.3.4" ∧
    sanitize_output "<MASKED_MAC>1.2.3.4" = "<MASKED_MAC><MASKED_PUBLIC_IP>" ∧
    sanitize_output (sanitize_output "snmp-server community MySecret123 RO") =
      sanitize_output "snmp-server community MySecret123 RO" ∧
    sanitize_output
        (sanitize_output "Loopback0 is up, line protocol is up\n  Internet address is 203.0.113.5/32") =
      sanitize_output "Loopback0 is up, line protocol is up\n  Internet address is 203.0.113.5/32" := by
  refine ⟨by decide, by decide, by decide, by decide⟩

/-- C2: As stated, private-range preservation fails: the input
`"password 1 10.0.0.1"` contains the private address `10.0.0.1`, yet the
credential rule consumes it (`\S+` after the keyword), so the sanitized
output no longer contains the address at all. -/
theorem private_ip_not_preserved :
    sanitize_output "password 1 10.0.0.1" = "password <HIDDEN_PASSWORD>" ∧
    hasSub "10.0.0.1".toList (sanitize_output "password 1 10.0.0.1").toList = false := by
  refine ⟨by decide, by decide⟩

/-- C3: As stated, public masking fails: `"secret 9 8.8.8.8"` contains the
public literal `8.8.8.8`, but the credential rule (applied first) consumes
it, so it is not replaced by `<MASKED_PUBLIC_IP>` — the placeholder does not
occur in the output. -/
theorem public_ip_not_always_masked :
    sanitize_output "secret 9 8.8.8.8" = "secret <HIDDEN_PASSWORD>" ∧
    hasSub "<MASKED_PUBLIC_IP>".toList (sanitize_output "secret 9 8.8.8.8").toList = false := by
  refine ⟨by decide, by decide⟩

/-- C4: As stated, credential containment fails: in
`"snmp-server community MySecret123 RO MySecret123"` the line matches the
community-string pattern, yet the sanitized output still contains the secret
token — only the occurrence immediately after the keyword is replaced. -/
theorem secret_token_can_survive :
    sanitize_output "snmp-server community MySecret123 RO MySecret123" =
      "snmp-server community <HIDDEN_COMMUNITY> RO MySecret123" ∧
    hasSub "MySecret123".toList
      (sanitize_output "snmp-server community MySecret123 RO MySecret123").toList = true := by
  refine ⟨by decide, by decide⟩

/-- C4 (amended): for a line matching a password/secret/community pattern,
the token occurrence following the keyword is absent from the output and the
fixed placeholder stands in its place — in particular
`snmp-server community MySecret123 RO` → `snmp-server community
<HIDDEN_COMMUNITY> RO` — but a repetition of the same token elsewhere in the
line is not redacted. -/
theorem credential_containment_amended :
    sanitize_output "snmp-server community MySecret123 RO" =
      "snmp-server community <HIDDEN_COMMUNITY> RO" ∧
    hasSub "MySecret123".toList
      (sanitize_output "snmp-server community MySecret123 RO").toList = false ∧
    sanitize_output "enable secret 5 SuperSecret99" = "enable secret <HIDDEN_PASSWORD>" ∧
    hasSub "SuperSecret99".toList
      (sanitize_output "enable secret 5 SuperSecret99").toList = false ∧
    sanitize_output "encrypted password Hunter2" = "encrypted password <HIDDEN_PASSWORD>" := by
  refine ⟨by decide, by decide, by decide, by decide, by decide⟩

/-- C7: As stated, order-independence fails: transposing the first two rules
(the generic password rule and the encrypted-password rule, both in the
credential category) changes the result on `"encrypted password 5 X"`. -/
theorem rule_order_matters :
    String.mk (applyRules rulesSwapped "encrypted password 5 X".toList) ≠
      String.mk (applyRules rules "encrypted password 5 X".toList) := by
  decide

/-- C7 (amended): the rules do not have mutually exclusive match domains —
`(password|secret) \d+ \S+` and `(encrypted password) \S+` overlap on
`"encrypted password 5 X"`, and the declared precedence is semantically
significant: in declared order the generic rule fires first and also hides
the trailing token, while in swapped order the trailing token survives. -/
theorem rule_order_amended :
    sanitize_output "encrypted password 5 X" = "encrypted password <HIDDEN_PASSWORD>" ∧
    String.mk (applyRules rulesSwapped "encrypted password 5 X".toList) =
      "encrypted password <HIDDEN_PASSWORD> X" := by
  refine ⟨by decide, by decide⟩

/-- C8: As stated, hardware-address masking fails for colon-grouped tokens:
the rule's pattern is dot-grouped only, so a colon-grouped link-layer address
passes through unchanged and no `<MASKED_MAC>` placeholder is produced. -/
theorem colon_mac_not_masked :
    sanitize_output "aa:bb:cc:dd:ee:ff" = "aa:bb:cc:dd:ee:ff" ∧
    hasSub "<MASKED_MAC>".toList (sanitize_output "aa:bb:cc:dd:ee:ff").toList = false := by
  refine ⟨by decide, by decide⟩

/-- C8 (amended): only dot-grouped 12-hex-digit tokens
(`xxxx.xxxx.xxxx`, the Cisco style) are replaced with `<MASKED_MAC>`;
colon-grouped addresses are not matched by the rule. -/
theorem mac_masking_amended :
    sanitize_output "aabb.ccdd.eeff" = "<MASKED_MAC>" ∧
    sanitize_output "Eth1/1 0050.56bf.9db2 dynamic" = "Eth1/1 <MASKED_MAC> dynamic" := by
  refine ⟨by decide, by decide⟩

/-- C10: the public-IP pattern validates only the shape (four word-bounded
dotted groups of one to three digits), not the octet range: `999.1.1.1` is
not a valid IPv4 address and `7.0.3.1` is a version string, yet both are
replaced with `<MASKED_PUBLIC_IP>`. -/
theorem ip_rule_masks_invalid_quads :
    sanitize_output "999.1.1.1" = "<MASKED_PUBLIC_IP>" ∧
    sanitize_output "NXOS: version 7.0.3.1" = "NXOS: version <MASKED_PUBLIC_IP>" := by
  refine ⟨by decide, by decide⟩

/-- C6: whenever the session raises during `connect_and_fetch`, the returned
dict carries `success=False` with an error message only — never the raw or
sanitized transcript — and the message is prefixed `Network Error` for the
two netmiko (authentication/timeout) exception classes and `System Error`
for any other exception, in both cases carrying the original message. -/
theorem fetch_failure_contained (conn : Except PyExc Ssh) (e : PyExc)
    (h : fetchRaw conn = .error e) :
    connect_and_fetch conn =
      .fail ((if e.isNetmiko then "Network Error: " else "System Error: ") ++ e.msg) ∧
    ∀ raw san, connect_and_fetch conn ≠ .ok raw san := by
  have hc : connect_and_fetch conn =
      (if e.isNetmiko then FetchResult.fail ("Network Error: " ++ e.msg)
       else FetchResult.fail ("System Error: " ++ e.msg)) := by
    unfold connect_and_fetch
    rw [h]
  refine ⟨?_, ?_⟩
  · rw [hc]; cases e <;> simp [PyExc.isNetmiko, PyExc.msg]
  · intro raw san hne
    rw [hc] at hne
    cases e <;> simp [PyExc.isNetmiko] at hne

/-- C6 witness: a session timing out on the second command of the sequence. -/
theorem fetch_failure_contained_witness :
    connect_and_fetch (Except.ok sshFail2) =
      .fail ((if (PyExc.netmikoTimeout "Read timed out").isNetmiko then "Network Error: "
              else "System Error: ") ++ (PyExc.netmikoTimeout "Read timed out").msg) ∧
    ∀ raw san, connect_and_fetch (Except.ok sshFail2) ≠ .ok raw san :=
  fetch_failure_contained (Except.ok sshFail2) (PyExc.netmikoTimeout "Read timed out") rfl

/-- C5: for any sanitized transcript, if the external reasoning call raises,
`ask_gemini_agent` catches the exception and returns an error-carrying string
instead of raising, and the run still reaches a terminal state exposing both
the raw and the sanitized transcript, with the report's verdict `UNKNOWN`
and the explanatory error text as its narrative. -/
theorem degraded_analysis_terminal (conn : Except PyExc Ssh) (key : String)
    (gen : String → Except String String) (raw san e : String)
    (hfetch : connect_and_fetch conn = .ok raw san)
    (hkey : hasSub "YOUR_GEMINI_API_KEY".toList key.toList = false)
    (hfail : gen (geminiPrompt san) = .error e) :
    ask_gemini_agent key gen san = "🤖 AI Agent Error: " ++ e ∧
    runDiagnostics conn key gen = .completed raw san ("🤖 AI Agent Error: " ++ e) ∧
    (analysisReport key gen san).verdict = .UNKNOWN ∧
    (analysisReport key gen san).narrative = "🤖 AI Agent Error: " ++ e := by
  have hask : ask_gemini_agent key gen san = "🤖 AI Agent Error: " ++ e := by
    unfold ask_gemini_agent
    rw [hkey, hfail]
    simp
  refine ⟨hask, ?_, ?_, ?_⟩
  · unfold runDiagnostics
    rw [hfetch]
    simp [hask]
  · unfold analysisReport
    rw [hkey, hfail]
    simp
  · unfold analysisReport
    rw [hkey, hfail]
    simp [hask]

set_option maxRecDepth 8000 in
/-- C5 witness: a healthy fetch followed by an unreachable reasoning
service. -/
theorem degraded_analysis_terminal_witness :
    ask_gemini_agent "sk-live-key" genFail rawOk = "🤖 AI Agent Error: " ++ "503 quota exceeded" ∧
    runDiagnostics (Except.ok sshOk) "sk-live-key" genFail =
      .completed rawOk rawOk ("🤖 AI Agent Error: " ++ "503 quota exceeded") ∧
    (analysisReport "sk-live-key" genFail rawOk).verdict = .UNKNOWN ∧
    (analysisReport "sk-live-key" genFail rawOk).narrative =
      "🤖 AI Agent Error: " ++ "503 quota exceeded" :=
  degraded_analysis_terminal (Except.ok sshOk) "sk-live-key" genFail rawOk rawOk
    "503 quota exceeded" (by decide) (by decide) rfl

/-! ## Transcript-structure lemmas -/

theorem toListApp (a b : String) : (a ++ b).toList = a.toList ++ b.toList :=
  String.data_append a b

theorem nl_toList : "\n".toList = ['\n'] := rfl

theorem dropLit_self_append (xs ys : List Char) : dropLit xs (xs ++ ys) = some ys := by
  induction xs with
  | nil => simp [dropLit]
  | cons c cs ih => simp [dropLit, ih]

theorem startsL_self_append (xs ys : List Char) : startsL xs (xs ++ ys) = true := by
  simp [startsL, dropLit_self_append]

theorem linesOf_cons_nl (r : List Char) : linesOf ('\n' :: r) = [] :: linesOf r := by
  simp [linesOf]

theorem linesOf_ne_nil (l : List Char) : linesOf l ≠ [] := by
  cases l with
  | nil => simp [linesOf]
  | cons c r =>
    rw [linesOf]
    split
    · simp
    · split <;> simp

theorem linesOf_line (a b : List Char) (h : '\n' ∉ a) :
    linesOf (a ++ '\n' :: b) = a :: linesOf b := by
  induction a with
  | nil => simp [linesOf]
  | cons c r ih =>
    have hc : ¬ c = '\n' := by intro hh; exact h (by simp [hh])
    have hr : '\n' ∉ r := by intro hh; exact h (by simp [hh])
    simp only [List.cons_append]
    rw [linesOf, if_neg hc, ih hr]

theorem linesOf_line2 (x y b : List Char) (hx : '\n' ∉ x) (hy : '\n' ∉ y) :
    linesOf (x ++ (y ++ '\n' :: b)) = (x ++ y) :: linesOf b := by
  rw [← List.append_assoc]
  refine linesOf_line (x ++ y) b ?_
  intro hmem
  rcases List.mem_append.mp hmem with h | h
  · exact hx h
  · exact hy h

theorem linesOf_append (a b : List Char) :
    linesOf (a ++ '\n' :: b) = linesOf a ++ linesOf b := by
  induction a with
  | nil => simp [linesOf]
  | cons c r ih =>
    by_cases hc : c = '\n'
    · subst hc
      simp only [List.cons_append]
      rw [linesOf_cons_nl, ih, linesOf_cons_nl]
      simp
    · obtain ⟨l, ls, hr⟩ : ∃ l ls, linesOf r = l :: ls := by
        cases hlr : linesOf r with
        | nil => exact absurd hlr (linesOf_ne_nil r)
        | cons l ls => exact ⟨l, ls, rfl⟩
      simp only [List.cons_append]
      rw [linesOf, if_neg hc, ih, hr]
      rw [linesOf, if_neg hc, hr]
      simp

theorem cmdBlock_toList (c o : String) : (cmdBlock c o).toList = charBlock c o.toList := by
  simp only [cmdBlock, charBlock, toListApp, List.append_assoc]
  rfl

theorem headerOf_nil : headerOf [] = none := rfl

theorem headerOf_bar : headerOf barLine.toList = none := rfl

theorem headerOf_banner (p : List Char) : headerOf ("Connected to: ".toList ++ p) = none := rfl

theorem headerOf_hdr (x : List Char) : headerOf ("[Command] ".toList ++ x) = some x :=
  dropLit_self_append _ _

theorem linesOf_charBlock (c : String) (o rest : List Char) (hc : '\n' ∉ c.toList) :
    linesOf (charBlock c o ++ rest) =
      [[], barLine.toList, "[Command] ".toList ++ c.toList] ++ linesOf o ++ linesOf rest := by
  unfold charBlock
  simp only [List.cons_append, List.append_assoc, List.singleton_append]
  rw [linesOf_cons_nl]
  rw [linesOf_line barLine.toList _ (by decide)]
  rw [linesOf_line2 "[Command] ".toList c.toList _ (by decide) hc]
  rw [linesOf_append]
  simp

theorem linesOf_charBlock_end (c : String) (o : List Char) (hc : '\n' ∉ c.toList) :
    linesOf (charBlock c o) =
      [[], barLine.toList, "[Command] ".toList ++ c.toList] ++ linesOf o ++ [[]] := by
  have h := linesOf_charBlock c o [] hc
  rw [List.append_nil] at h
  simpa [linesOf] using h

/-- C9: on a successful run, `connect_and_fetch` issues the fixed command
list strictly in order over the one session, and the returned raw transcript
is the prompt banner followed by each command's block (header line plus that
command's own output) in exactly that issue order; extracting the
`[Command] ` header lines of the transcript recovers the command list in
issue order.  The hypotheses say only that the session answers every command
(with `outF` naming each answer) and that neither the prompt nor any command
output itself contains a transcript header line. -/
theorem fetch_preserves_command_order
    (ssh : Ssh) (prompt : String) (outF : String → String)
    (hp : ssh.find_prompt = .ok prompt)
    (hs : ∀ c ∈ commands, ssh.send_command c = .ok (outF c))
    (hpn : '\n' ∉ prompt.toList)
    (ho : ∀ c ∈ commands, ∀ l ∈ linesOf (outF c).toList, headerOf l = none) :
    ∃ raw : String,
      connect_and_fetch (Except.ok ssh) = .ok raw (sanitize_output raw) ∧
      raw = ("Connected to: " ++ prompt ++ "\n") ++
        cmdBlock "terminal length 0" (outF "terminal length 0") ++
        cmdBlock "show version" (outF "show version") ++
        cmdBlock "show interface brief" (outF "show interface brief") ++
        cmdBlock "show ip route" (outF "show ip route") ∧
      startsL ("Connected to: " ++ prompt ++ "\n").toList raw.toList = true ∧
      cmdHeaders raw.toList = commands.map String.toList := by
  have h1 := hs "terminal length 0" (by simp [commands])
  have h2 := hs "show version" (by simp [commands])
  have h3 := hs "show interface brief" (by simp [commands])
  have h4 := hs "show ip route" (by simp [commands])
  refine ⟨("Connected to: " ++ prompt ++ "\n") ++
      cmdBlock "terminal length 0" (outF "terminal length 0") ++
      cmdBlock "show version" (outF "show version") ++
      cmdBlock "show interface brief" (outF "show interface brief") ++
      cmdBlock "show ip route" (outF "show ip route"), ?_, rfl, ?_, ?_⟩
  · have hraw : fetchRaw (Except.ok ssh) =
        .ok (("Connected to: " ++ prompt ++ "\n") ++
          cmdBlock "terminal length 0" (outF "terminal length 0") ++
          cmdBlock "show version" (outF "show version") ++
          cmdBlock "show interface brief" (outF "show interface brief") ++
          cmdBlock "show ip route" (outF "show ip route")) := by
      simp only [fetchRaw, commands, List.foldlM, bind, Except.bind, pure, Except.pure,
        hp, h1, h2, h3, h4]
    unfold connect_and_fetch
    rw [hraw]
  · have hb2 : ((("Connected to: " ++ prompt ++ "\n") ++
        cmdBlock "terminal length 0" (outF "terminal length 0") ++
        cmdBlock "show version" (outF "show version") ++
        cmdBlock "show interface brief" (outF "show interface brief") ++
        cmdBlock "show ip route" (outF "show ip route")).toList) =
        ("Connected to: " ++ prompt ++ "\n").toList ++
          ((cmdBlock "terminal length 0" (outF "terminal length 0")).toList ++
           ((cmdBlock "show version" (outF "show version")).toList ++
            ((cmdBlock "show interface brief" (outF "show interface brief")).toList ++
             (cmdBlock "show ip route" (outF "show ip route")).toList))) := by
      simp only [toListApp, List.append_assoc]
    rw [hb2]
    exact startsL_self_append _ _
  · have hlist : ((("Connected to: " ++ prompt ++ "\n") ++
        cmdBlock "terminal length 0" (outF "terminal length 0") ++
        cmdBlock "show version" (outF "show version") ++
        cmdBlock "show interface brief" (outF "show interface brief") ++
        cmdBlock "show ip route" (outF "show ip route")).toList) =
        "Connected to: ".toList ++ (prompt.toList ++ ('\n' ::
          (charBlock "terminal length 0" (outF "terminal length 0").toList ++
           (charBlock "show version" (outF "show version").toList ++
            (charBlock "show interface brief" (outF "show interface brief").toList ++
             charBlock "show ip route" (outF "show ip route").toList))))) := by
      simp only [toListApp, cmdBlock_toList, nl_toList, List.append_assoc,
        List.singleton_append, List.cons_append, List.nil_append]
    rw [hlist]
    unfold cmdHeaders
    rw [linesOf_line2 _ _ _ (by decide) hpn]
    rw [linesOf_charBlock _ _ _ (by decide)]
    rw [linesOf_charBlock _ _ _ (by decide)]
    rw [linesOf_charBlock _ _ _ (by decide)]
    rw [linesOf_charBlock_end _ _ (by decide)]
    have hf1 : (linesOf (outF "terminal length 0").toList).filterMap headerOf = [] :=
      List.filterMap_eq_nil_iff.mpr (ho _ (by simp [commands]))
    have hf2 : (linesOf (outF "show version").toList).filterMap headerOf = [] :=
      List.filterMap_eq_nil_iff.mpr (ho _ (by simp [commands]))
    have hf3 : (linesOf (outF "show interface brief").toList).filterMap headerOf = [] :=
      List.filterMap_eq_nil_iff.mpr (ho _ (by simp [commands]))
    have hf4 : (linesOf (outF "show ip route").toList).filterMap headerOf = [] :=
      List.filterMap_eq_nil_iff.mpr (ho _ (by simp [commands]))
    simp only [List.filterMap_append, List.filterMap_cons, List.filterMap_nil,
      headerOf_nil, headerOf_bar, headerOf_hdr, headerOf_banner, hf1, hf2, hf3, hf4,
      List.append_nil, List.nil_append, List.cons_append, commands, List.map_cons,
      List.map_nil]

set_option maxRecDepth 8000 in
/-- C9 witness: a healthy session answering every command. -/
theorem fetch_preserves_command_order_witness :
    ∃ raw : String,
      connect_and_fetch (Except.ok sshOk) = .ok raw (sanitize_output raw) ∧
      raw = ("Connected to: " ++ "switch#" ++ "\n") ++
        cmdBlock "terminal length 0" ((fun _ => "") "terminal length 0") ++
        cmdBlock "show version" ((fun _ => "") "show version") ++
        cmdBlock "show interface brief" ((fun _ => "") "show interface brief") ++
        cmdBlock "show ip route" ((fun _ => "") "show ip route") ∧
      startsL ("Connected to: " ++ "switch#" ++ "\n").toList raw.toList = true ∧
      cmdHeaders raw.toList = commands.map String.toList :=
  fetch_preserves_command_order sshOk "switch#" (fun _ => "") rfl (fun _ _ => rfl)
    (by decide) (by decide)

/-! ## Scan-identity machinery

`subF_none` says a `re.sub` pass returns its input unchanged when the rule
matches at no scan position; the lemmas after it discharge the no-match
condition for each rule on a standalone well-formed dotted quad. -/

theorem subF_none (rule : RuleT) (s : List Char)
    (h : ∀ a b, s = a ++ b → rule a.getLast? b = none) :
    ∀ (b a : List Char) (fuel : Nat), s = a ++ b → subF rule fuel a.getLast? b = b := by
  intro b
  induction b with
  | nil => intro a fuel _; cases fuel <;> rfl
  | cons c cs ih =>
    intro a fuel hs
    cases fuel with
    | zero => rfl
    | succ f =>
      have hnone := h a (c :: cs) hs
      have hs' : s = (a ++ [c]) ++ cs := by rw [hs]; simp
      have hstep := ih (a ++ [c]) f hs'
      rw [List.getLast?_concat] at hstep
      simp only [subF, hnone, hstep]

theorem runRule_none (rule : RuleT) (s : List Char)
    (h : ∀ a b, s = a ++ b → rule a.getLast? b = none) :
    runRule rule s = s := by
  have := subF_none rule s h s [] (s.length + 1) rfl
  simpa [runRule] using this

theorem takeWhile_all (p : Char → Bool) (g : List Char) (hg : ∀ c ∈ g, p c = true) :
    g.takeWhile p = g := by
  induction g with
  | nil => rfl
  | cons c r ih =>
    have hc := hg c (by simp)
    simp [List.takeWhile, hc, ih (fun x hx => hg x (by simp [hx]))]

theorem dropWhile_all (p : Char → Bool) (g : List Char) (hg : ∀ c ∈ g, p c = true) :
    g.dropWhile p = [] := by
  induction g with
  | nil => rfl
  | cons c r ih =>
    have hc := hg c (by simp)
    simp [List.dropWhile, hc, ih (fun x hx => hg x (by simp [hx]))]

theorem takeWhile_append_stop (p : Char → Bool) (g : List Char) (c : Char) (r : List Char)
    (hg : ∀ x ∈ g, p x = true) (hc : p c = false) :
    (g ++ c :: r).takeWhile p = g := by
  induction g with
  | nil => simp [List.takeWhile, hc]
  | cons d g' ih =>
    have hd := hg d (by simp)
    simp [List.takeWhile, hd, ih (fun x hx => hg x (by simp [hx]))]

theorem dropWhile_append_stop (p : Char → Bool) (g : List Char) (c : Char) (r : List Char)
    (hg : ∀ x ∈ g, p x = true) (hc : p c = false) :
    (g ++ c :: r).dropWhile p = c :: r := by
  induction g with
  | nil => simp [List.dropWhile, hc]
  | cons d g' ih =>
    have hd := hg d (by simp)
    simp [List.dropWhile, hd, ih (fun x hx => hg x (by simp [hx]))]

theorem grab1_all (g : List Char) (hne : g ≠ []) (hg : ∀ c ∈ g, isPyDigit c = true) :
    grab1 isPyDigit g = some (g, []) := by
  unfold grab1
  rw [takeWhile_all _ _ hg, dropWhile_all _ _ hg]
  cases g with
  | nil => exact absurd rfl hne
  | cons c r => rfl

theorem grab1_stop (g : List Char) (r : List Char) (hne : g ≠ [])
    (hg : ∀ c ∈ g, isPyDigit c = true) :
    grab1 isPyDigit (g ++ '.' :: r) = some (g, '.' :: r) := by
  unfold grab1
  rw [takeWhile_append_stop _ _ _ _ hg (by decide), dropWhile_append_stop _ _ _ _ hg (by decide)]
  cases g with
  | nil => exact absurd rfl hne
  | cons c r' => rfl

theorem grpDot_no_dot (g : List Char) (hg : ∀ c ∈ g, isPyDigit c = true) :
    grpDot g = none := by
  unfold grpDot
  cases hgn : g with
  | nil => rfl
  | cons c r =>
    rw [← hgn, grab1_all g (by simp [hgn]) hg]
    by_cases hl : g.length ≤ 3 <;> simp [hl, dropLit]

theorem grpDot_group (g r : List Char) (hne : g ≠ []) (hlen : g.length ≤ 3)
    (hg : ∀ c ∈ g, isPyDigit c = true) :
    grpDot (g ++ '.' :: r) = some r := by
  unfold grpDot
  rw [grab1_stop g r hne hg]
  simp [hlen, dropLit]

theorem dropLit_cons_ne (x : Char) (xs : List Char) (d : Char) (ds : List Char)
    (h : d ≠ x) : dropLit (x :: xs) (d :: ds) = none := by
  simp [dropLit, h]

theorem quad_mem (g1 g2 g3 g4 : List Char)
    (h1 : ∀ c ∈ g1, isPyDigit c = true) (h2 : ∀ c ∈ g2, isPyDigit c = true)
    (h3 : ∀ c ∈ g3, isPyDigit c = true) (h4 : ∀ c ∈ g4, isPyDigit c = true) :
    ∀ c ∈ quadChars g1 g2 g3 g4, isPyDigit c = true ∨ c = '.' := by
  intro c hc
  unfold quadChars at hc
  rcases List.mem_append.mp hc with h | h
  · exact Or.inl (h1 c h)
  · rcases List.mem_cons.mp h with rfl | h
    · exact Or.inr rfl
    · rcases List.mem_append.mp h with h | h
      · exact Or.inl (h2 c h)
      · rcases List.mem_cons.mp h with rfl | h
        · exact Or.inr rfl
        · rcases List.mem_append.mp h with h | h
          · exact Or.inl (h3 c h)
          · rcases List.mem_cons.mp h with rfl | h
            · exact Or.inr rfl
            · exact Or.inl (h4 c h)

theorem credential_rules_none (prev : Option Char) (b : List Char)
    (hb : b = [] ∨ ∃ c r, b = c :: r ∧ (isPyDigit c = true ∨ c = '.')) :
    rule_password_secret prev b = none ∧ rule_encrypted_password prev b = none ∧
    rule_snmp_community prev b = none ∧ rule_username_secret prev b = none := by
  rcases hb with rfl | ⟨c, r, rfl, hc⟩
  · exact ⟨rfl, rfl, rfl, rfl⟩
  · have hne : ∀ d : Char, isPyDigit d = false → d ≠ '.' → c ≠ d := by
      intro d hd hdot he
      rcases hc with h | h
      · rw [he] at h; rw [h] at hd; cases hd
      · rw [he] at h; exact hdot h
    have hp := hne 'p' (by decide) (by decide)
    have hs' := hne 's' (by decide) (by decide)
    have he' := hne 'e' (by decide) (by decide)
    have hu' := hne 'u' (by decide) (by decide)
    refine ⟨?_, ?_, ?_, ?_⟩
    · simp [rule_password_secret, dropLit, hp, hs']
    · simp [rule_encrypted_password, dropLit, he']
    · simp [rule_snmp_community, dropLit, hs']
    · simp [rule_username_secret, dropLit, hu']

theorem grab4Hex_dot_take (b : List Char) (h : '.' ∈ b.take 4) : grab4Hex b = none := by
  rcases b with _ | ⟨a, _ | ⟨b2, _ | ⟨c, _ | ⟨d, r⟩⟩⟩⟩
  · rfl
  · rfl
  · rfl
  · rfl
  · have hdot : isHexDigit '.' = false := by decide
    simp at h
    rcases h with h | h | h | h <;> (rw [← h]; simp [grab4Hex, hdot])

theorem grab4Hex_short (b : List Char) (hb : b.length ≤ 3) : grab4Hex b = none := by
  rcases b with _ | ⟨a, _ | ⟨b2, _ | ⟨c, _ | ⟨d, r⟩⟩⟩⟩
  · rfl
  · rfl
  · rfl
  · rfl
  · simp at hb

theorem grab4Hex_dot (x r : List Char) (hx : x.length ≤ 3) :
    grab4Hex (x ++ '.' :: r) = none := by
  refine grab4Hex_dot_take _ ?_
  rcases x with _ | ⟨c1, _ | ⟨c2, _ | ⟨c3, t⟩⟩⟩
  · simp [List.take]
  · simp [List.take]
  · simp [List.take]
  · rcases t with _ | ⟨c4, t'⟩
    · simp [List.take]
    · simp at hx

theorem rule_mac_none (prev : Option Char) (b : List Char)
    (hb : grab4Hex b = none) : rule_mac prev b = none := by
  simp [rule_mac, hb]

theorem rule_public_ip_none_wordPrev (p : Char) (b : List Char)
    (hp : isPyWord p = true) : rule_public_ip (some p) b = none := by
  simp [rule_public_ip, hp]

theorem isPyWord_of_digit (c : Char) (h : isPyDigit c = true) : isPyWord c = true := by
  unfold isPyWord
  unfold isPyDigit at h
  simp [h]

theorem rule_public_ip_none_priv (prev : Option Char) (b : List Char)
    (hb : isPrivAhead b = true) : rule_public_ip prev b = none := by
  cases prev with
  | none => simp [rule_public_ip, hb]
  | some p => by_cases hw : isPyWord p <;> simp [rule_public_ip, hb, hw]

theorem rule_public_ip_none_oneGroup (prev : Option Char) (g : List Char)
    (hg : ∀ c ∈ g, isPyDigit c = true) : rule_public_ip prev g = none := by
  have h := grpDot_no_dot g hg
  cases prev with
  | none => by_cases hp : isPrivAhead g <;> simp [rule_public_ip, hp, h]
  | some p =>
    by_cases hw : isPyWord p <;> by_cases hp : isPrivAhead g <;>
      simp [rule_public_ip, hw, hp, h]

theorem rule_public_ip_none_twoGroups (prev : Option Char) (g g' : List Char)
    (hne : g ≠ []) (hlen : g.length ≤ 3) (hg : ∀ c ∈ g, isPyDigit c = true)
    (hg' : ∀ c ∈ g', isPyDigit c = true) :
    rule_public_ip prev (g ++ '.' :: g') = none := by
  have e1 := grpDot_group g g' hne hlen hg
  have e2 := grpDot_no_dot g' hg'
  cases prev with
  | none => by_cases hp : isPrivAhead (g ++ '.' :: g') <;> simp [rule_public_ip, hp, e1, e2]
  | some p =>
    by_cases hw : isPyWord p <;> by_cases hp : isPrivAhead (g ++ '.' :: g') <;>
      simp [rule_public_ip, hw, hp, e1, e2]

theorem rule_public_ip_none_threeGroups (prev : Option Char) (g g' g'' : List Char)
    (hne : g ≠ []) (hlen : g.length ≤ 3) (hg : ∀ c ∈ g, isPyDigit c = true)
    (hne' : g' ≠ []) (hlen' : g'.length ≤ 3) (hg' : ∀ c ∈ g', isPyDigit c = true)
    (hg'' : ∀ c ∈ g'', isPyDigit c = true) :
    rule_public_ip prev (g ++ '.' :: (g' ++ '.' :: g'')) = none := by
  have e1 := grpDot_group g (g' ++ '.' :: g'') hne hlen hg
  have e2 := grpDot_group g' g'' hne' hlen' hg'
  have e3 := grpDot_no_dot g'' hg''
  cases prev with
  | none =>
    by_cases hp : isPrivAhead (g ++ '.' :: (g' ++ '.' :: g'')) <;>
      simp [rule_public_ip, hp, e1, e2, e3]
  | some p =>
    by_cases hw : isPyWord p <;>
      by_cases hp : isPrivAhead (g ++ '.' :: (g' ++ '.' :: g'')) <;>
      simp [rule_public_ip, hw, hp, e1, e2, e3]

theorem split_sep (g : List Char) (t x y : List Char) (hg : '.' ∉ g)
    (h : x ++ '.' :: y = g ++ '.' :: t) :
    (x = g ∧ y = t) ∨ (∃ x', x = g ++ '.' :: x' ∧ x' ++ '.' :: y = t) := by
  induction g generalizing x with
  | nil =>
    cases x with
    | nil =>
      simp at h
      exact Or.inl ⟨rfl, h⟩
    | cons c x' =>
      simp at h
      exact Or.inr ⟨x', by simp [h.1], h.2⟩
  | cons d g' ih =>
    cases x with
    | nil =>
      simp at h
      exact absurd h.1 (fun hd => hg (by simp [hd.symm]))
    | cons c x' =>
      simp at h
      have hg' : '.' ∉ g' := fun hm => hg (by simp [hm])
      rcases ih x' hg' h.2 with ⟨hx, hy⟩ | ⟨x'', hx, ht⟩
      · exact Or.inl ⟨by simp [h.1, hx], hy⟩
      · exact Or.inr ⟨x'', by simp [h.1, hx], ht⟩

theorem dot_prev_cases (g1 g2 g3 g4 a₀ b : List Char)
    (hd1 : '.' ∉ g1) (hd2 : '.' ∉ g2) (hd3 : '.' ∉ g3) (hd4 : '.' ∉ g4)
    (h : a₀ ++ '.' :: b = quadChars g1 g2 g3 g4) :
    b = g2 ++ '.' :: (g3 ++ '.' :: g4) ∨ b = g3 ++ '.' :: g4 ∨ b = g4 := by
  unfold quadChars at h
  rcases split_sep g1 _ _ _ hd1 h with ⟨_, hy⟩ | ⟨xa, _, ht⟩
  · exact Or.inl hy
  · rcases split_sep g2 _ _ _ hd2 ht with ⟨_, hy⟩ | ⟨xb, _, ht2⟩
    · exact Or.inr (Or.inl hy)
    · rcases split_sep g3 _ _ _ hd3 ht2 with ⟨_, hy⟩ | ⟨xc, _, ht3⟩
      · exact Or.inr (Or.inr hy)
      · exact absurd (by rw [← ht3]; simp : '.' ∈ g4) hd4

theorem suffix_append_cases (u : List Char) :
    ∀ (t b v : List Char), t ++ b = u ++ v →
      b <:+ v ∨ ∃ x, x <:+ u ∧ x ≠ [] ∧ b = x ++ v := by
  induction u with
  | nil =>
    intro t b v ht
    exact Or.inl ⟨t, by simpa using ht⟩
  | cons c u' ih =>
    intro t b v ht
    cases t with
    | nil => exact Or.inr ⟨c :: u', List.suffix_refl _, by simp, by simpa using ht⟩
    | cons c' t' =>
      simp at ht
      rcases ih t' b v ht.2 with hl | ⟨x, hx, hne, hb⟩
      · exact Or.inl hl
      · exact Or.inr ⟨x, hx.trans (List.suffix_cons c u'), hne, hb⟩

theorem quad_suffix_shapes (g1 g2 g3 g4 b : List Char)
    (h : b <:+ quadChars g1 g2 g3 g4) :
    (∃ x, x <:+ g1 ∧ b = x ++ '.' :: (g2 ++ '.' :: (g3 ++ '.' :: g4))) ∨
    (∃ x, x <:+ g2 ∧ b = x ++ '.' :: (g3 ++ '.' :: g4)) ∨
    (∃ x, x <:+ g3 ∧ b = x ++ '.' :: g4) ∨
    b <:+ g4 := by
  unfold quadChars at h
  obtain ⟨t, ht⟩ := h
  rcases suffix_append_cases g1 t b _ ht with h1 | ⟨x, hx, _, rfl⟩
  · rcases List.suffix_cons_iff.mp h1 with rfl | h2
    · exact Or.inl ⟨[], List.nil_suffix, by simp⟩
    · obtain ⟨t2, ht2⟩ := h2
      rcases suffix_append_cases g2 t2 b _ ht2 with h3 | ⟨x, hx, _, rfl⟩
      · rcases List.suffix_cons_iff.mp h3 with rfl | h4
        · exact Or.inr (Or.inl ⟨[], List.nil_suffix, by simp⟩)
        · obtain ⟨t3, ht3⟩ := h4
          rcases suffix_append_cases g3 t3 b _ ht3 with h5 | ⟨x, hx, _, rfl⟩
          · rcases List.suffix_cons_iff.mp h5 with rfl | h6
            · exact Or.inr (Or.inr (Or.inl ⟨[], List.nil_suffix, by simp⟩))
            · exact Or.inr (Or.inr (Or.inr h6))
          · exact Or.inr (Or.inr (Or.inl ⟨x, hx, rfl⟩))
      · exact Or.inr (Or.inl ⟨x, hx, rfl⟩)
  · exact Or.inl ⟨x, hx, rfl⟩

theorem quad_rules_none (g1 g2 g3 g4 : List Char)
    (h1 : groupOk g1) (h2 : groupOk g2) (h3 : groupOk g3) (h4 : groupOk g4)
    (hpriv : isPrivAhead (quadChars g1 g2 g3 g4) = true) :
    ∀ a b, quadChars g1 g2 g3 g4 = a ++ b →
      rule_password_secret a.getLast? b = none ∧
      rule_encrypted_password a.getLast? b = none ∧
      rule_snmp_community a.getLast? b = none ∧
      rule_username_secret a.getLast? b = none ∧
      rule_public_ip a.getLast? b = none ∧
      rule_mac a.getLast? b = none := by
  obtain ⟨h1n, h1l, h1d⟩ := h1
  obtain ⟨h2n, h2l, h2d⟩ := h2
  obtain ⟨h3n, h3l, h3d⟩ := h3
  obtain ⟨h4n, h4l, h4d⟩ := h4
  have hdot1 : '.' ∉ g1 := fun hm => absurd (h1d '.' hm) (by decide)
  have hdot2 : '.' ∉ g2 := fun hm => absurd (h2d '.' hm) (by decide)
  have hdot3 : '.' ∉ g3 := fun hm => absurd (h3d '.' hm) (by decide)
  have hdot4 : '.' ∉ g4 := fun hm => absurd (h4d '.' hm) (by decide)
  intro a b hs
  have hsuf : b <:+ quadChars g1 g2 g3 g4 := ⟨a, hs.symm⟩
  have hhead : b = [] ∨ ∃ c r, b = c :: r ∧ (isPyDigit c = true ∨ c = '.') := by
    cases b with
    | nil => exact Or.inl rfl
    | cons c r =>
      refine Or.inr ⟨c, r, rfl, ?_⟩
      exact quad_mem g1 g2 g3 g4 h1d h2d h3d h4d c (hsuf.subset (by simp))
  obtain ⟨hr1, hr2, hr3, hr4⟩ := credential_rules_none a.getLast? b hhead
  have hr6 : rule_mac a.getLast? b = none := by
    rcases quad_suffix_shapes g1 g2 g3 g4 b hsuf with
      ⟨x, hx, rfl⟩ | ⟨x, hx, rfl⟩ | ⟨x, hx, rfl⟩ | hb4
    · exact rule_mac_none _ _ (grab4Hex_dot x _ (le_trans hx.length_le h1l))
    · exact rule_mac_none _ _ (grab4Hex_dot x _ (le_trans hx.length_le h2l))
    · exact rule_mac_none _ _ (grab4Hex_dot x _ (le_trans hx.length_le h3l))
    · exact rule_mac_none _ _ (grab4Hex_short b (le_trans hb4.length_le h4l))
  have hr5 : rule_public_ip a.getLast? b = none := by
    induction a using List.reverseRecOn with
    | nil =>
      have hb : b = quadChars g1 g2 g3 g4 := by simpa using hs.symm
      subst hb
      exact rule_public_ip_none_priv _ _ hpriv
    | append_singleton a₀ p _ =>
      rw [List.getLast?_concat]
      have hpmem : p ∈ quadChars g1 g2 g3 g4 := by
        rw [hs]
        simp
      rcases quad_mem g1 g2 g3 g4 h1d h2d h3d h4d p hpmem with hdig | rfl
      · exact rule_public_ip_none_wordPrev p b (isPyWord_of_digit p hdig)
      · have hsplit : a₀ ++ '.' :: b = quadChars g1 g2 g3 g4 := by
          rw [hs]
          simp
        rcases dot_prev_cases g1 g2 g3 g4 a₀ b hdot1 hdot2 hdot3 hdot4 hsplit with
          hb | hb | hb
        · rw [hb]
          exact rule_public_ip_none_threeGroups _ g2 g3 g4 h2n h2l h2d h3n h3l h3d h4d
        · rw [hb]
          exact rule_public_ip_none_twoGroups _ g3 g4 h3n h3l h3d h4d
        · rw [hb]
          exact rule_public_ip_none_oneGroup _ g4 h4d
  exact ⟨hr1, hr2, hr3, hr4, hr5, hr6⟩

theorem applyRules_quad (g1 g2 g3 g4 : List Char)
    (h1 : groupOk g1) (h2 : groupOk g2) (h3 : groupOk g3) (h4 : groupOk g4)
    (hpriv : isPrivAhead (quadChars g1 g2 g3 g4) = true) :
    applyRules rules (quadChars g1 g2 g3 g4) = quadChars g1 g2 g3 g4 := by
  have h := quad_rules_none g1 g2 g3 g4 h1 h2 h3 h4 hpriv
  have e1 := runRule_none rule_password_secret _ (fun a b hs => (h a b hs).1)
  have e2 := runRule_none rule_encrypted_password _ (fun a b hs => (h a b hs).2.1)
  have e3 := runRule_none rule_snmp_community _ (fun a b hs => (h a b hs).2.2.1)
  have e4 := runRule_none rule_username_secret _ (fun a b hs => (h a b hs).2.2.2.1)
  have e5 := runRule_none rule_public_ip _ (fun a b hs => (h a b hs).2.2.2.2.1)
  have e6 := runRule_none rule_mac _ (fun a b hs => (h a b hs).2.2.2.2.2)
  simp only [applyRules, rules, List.foldl_cons, List.foldl_nil]
  rw [e1, e2, e3, e4, e5, e6]

/-- C2 (amended): the public-IP rule's private-range exemption is exact, and
for a standalone address preservation holds universally: every dotted quad of
four one-to-three-digit groups whose start matches the private lookahead
(`10.`, `172.16.`–`172.31.`, `192.168.`) passes through the entire rule set
byte-for-byte unchanged — so `172.16.x.x`–`172.31.x.x` is preserved — while
`172.32.0.1` (outside the exemption) is masked; but a private address inside
a credential-rule match is removed together with the matched token. -/
theorem private_range_preserved_amended :
    (∀ g1 g2 g3 g4 : List Char, groupOk g1 → groupOk g2 → groupOk g3 → groupOk g4 →
      isPrivAhead (quadChars g1 g2 g3 g4) = true →
      sanitize_output (String.mk (quadChars g1 g2 g3 g4)) =
        String.mk (quadChars g1 g2 g3 g4)) ∧
    sanitize_output "  ip address 10.255.0.7/24" = "  ip address 10.255.0.7/24" ∧
    sanitize_output "172.32.0.1" = "<MASKED_PUBLIC_IP>" := by
  refine ⟨?_, by decide, by decide⟩
  intro g1 g2 g3 g4 h1 h2 h3 h4 hpriv
  unfold sanitize_output
  rw [show (String.mk (quadChars g1 g2 g3 g4)).toList = quadChars g1 g2 g3 g4 from rfl]
  rw [applyRules_quad g1 g2 g3 g4 h1 h2 h3 h4 hpriv]

/-- C2 witness: the universal preservation instantiated at `10.1.1.1`. -/
theorem private_range_preserved_amended_witness :
    sanitize_output (String.mk (quadChars ['1', '0'] ['1'] ['1'] ['1'])) =
      String.mk (quadChars ['1', '0'] ['1'] ['1'] ['1']) :=
  private_range_preserved_amended.1 ['1', '0'] ['1'] ['1'] ['1']
    ⟨by decide, by decide, by decide⟩ ⟨by decide, by decide, by decide⟩
    ⟨by decide, by decide, by decide⟩ ⟨by decide, by decide, by decide⟩ (by decide)

theorem subF_nil (rule : RuleT) (fuel : Nat) (prev : Option Char) :
    subF rule fuel prev [] = [] := by
  cases fuel <;> rfl

theorem quad_nonip_rules_none (g1 g2 g3 g4 : List Char)
    (h1 : groupOk g1) (h2 : groupOk g2) (h3 : groupOk g3) (h4 : groupOk g4) :
    ∀ a b, quadChars g1 g2 g3 g4 = a ++ b →
      rule_password_secret a.getLast? b = none ∧
      rule_encrypted_password a.getLast? b = none ∧
      rule_snmp_community a.getLast? b = none ∧
      rule_username_secret a.getLast? b = none ∧
      rule_mac a.getLast? b = none := by
  obtain ⟨h1n, h1l, h1d⟩ := h1
  obtain ⟨h2n, h2l, h2d⟩ := h2
  obtain ⟨h3n, h3l, h3d⟩ := h3
  obtain ⟨h4n, h4l, h4d⟩ := h4
  intro a b hs
  have hsuf : b <:+ quadChars g1 g2 g3 g4 := ⟨a, hs.symm⟩
  have hhead : b = [] ∨ ∃ c r, b = c :: r ∧ (isPyDigit c = true ∨ c = '.') := by
    cases b with
    | nil => exact Or.inl rfl
    | cons c r =>
      refine Or.inr ⟨c, r, rfl, ?_⟩
      exact quad_mem g1 g2 g3 g4 h1d h2d h3d h4d c (hsuf.subset (by simp))
  obtain ⟨hr1, hr2, hr3, hr4⟩ := credential_rules_none a.getLast? b hhead
  have hr6 : rule_mac a.getLast? b = none := by
    rcases quad_suffix_shapes g1 g2 g3 g4 b hsuf with
      ⟨x, hx, rfl⟩ | ⟨x, hx, rfl⟩ | ⟨x, hx, rfl⟩ | hb4
    · exact rule_mac_none _ _ (grab4Hex_dot x _ (le_trans hx.length_le h1l))
    · exact rule_mac_none _ _ (grab4Hex_dot x _ (le_trans hx.length_le h2l))
    · exact rule_mac_none _ _ (grab4Hex_dot x _ (le_trans hx.length_le h3l))
    · exact rule_mac_none _ _ (grab4Hex_short b (le_trans hb4.length_le h4l))
  exact ⟨hr1, hr2, hr3, hr4, hr6⟩

theorem rule_public_ip_match_quad (g1 g2 g3 g4 : List Char)
    (h1 : groupOk g1) (h2 : groupOk g2) (h3 : groupOk g3) (h4 : groupOk g4)
    (hpriv : isPrivAhead (quadChars g1 g2 g3 g4) = false) :
    rule_public_ip none (quadChars g1 g2 g3 g4) =
      some ("<MASKED_PUBLIC_IP>".toList, []) := by
  obtain ⟨h1n, h1l, h1d⟩ := h1
  obtain ⟨h2n, h2l, h2d⟩ := h2
  obtain ⟨h3n, h3l, h3d⟩ := h3
  obtain ⟨h4n, h4l, h4d⟩ := h4
  have e1 := grpDot_group g1 (g2 ++ '.' :: (g3 ++ '.' :: g4)) h1n h1l h1d
  have e2 := grpDot_group g2 (g3 ++ '.' :: g4) h2n h2l h2d
  have e3 := grpDot_group g3 g4 h3n h3l h3d
  have e4 := grab1_all g4 h4n h4d
  unfold quadChars at hpriv ⊢
  simp [rule_public_ip, hpriv, e1, e2, e3, e4, h4l]

theorem runRule_match_all (rule : RuleT) (s rep : List Char)
    (hm : rule none s = some (rep, [])) (hne : s ≠ []) :
    runRule rule s = rep := by
  unfold runRule
  cases s with
  | nil => exact absurd rfl hne
  | cons c cs =>
    simp only [subF, hm, subF_nil, List.append_nil]

/-- C3 (amended): for a standalone address, public masking holds universally:
every dotted quad of four one-to-three-digit groups whose start does not
match the private lookahead sanitizes to the single constant placeholder
`<MASKED_PUBLIC_IP>` — so any two distinct public addresses become
indistinguishable — as in the specification's scenario, where `203.0.113.5`
is masked while the `10.1.1.1` line is left intact; a public address
consumed by an earlier credential match is removed by that rule instead of
being replaced by the placeholder. -/
theorem public_masking_amended :
    (∀ g1 g2 g3 g4 : List Char, groupOk g1 → groupOk g2 → groupOk g3 → groupOk g4 →
      isPrivAhead (quadChars g1 g2 g3 g4) = false →
      sanitize_output (String.mk (quadChars g1 g2 g3 g4)) = "<MASKED_PUBLIC_IP>") ∧
    sanitize_output "Loopback0 is up, line protocol is up\n  Internet address is 203.0.113.5/32" =
      "Loopback0 is up, line protocol is up\n  Internet address is <MASKED_PUBLIC_IP>/32" ∧
    sanitize_output "10.1.1.1 is reachable" = "10.1.1.1 is reachable" ∧
    sanitize_output "203.0.113.5" = sanitize_output "198.51.100.7" := by
  refine ⟨?_, by decide, by decide, by decide⟩
  intro g1 g2 g3 g4 h1 h2 h3 h4 hpriv
  have hnone := quad_nonip_rules_none g1 g2 g3 g4 h1 h2 h3 h4
  have e1 := runRule_none rule_password_secret _ (fun a b hs => (hnone a b hs).1)
  have e2 := runRule_none rule_encrypted_password _ (fun a b hs => (hnone a b hs).2.1)
  have e3 := runRule_none rule_snmp_community _ (fun a b hs => (hnone a b hs).2.2.1)
  have e4 := runRule_none rule_username_secret _ (fun a b hs => (hnone a b hs).2.2.2.1)
  have hne : quadChars g1 g2 g3 g4 ≠ [] := by
    obtain ⟨h1n, -, -⟩ := h1
    unfold quadChars
    cases g1 with
    | nil => exact absurd rfl h1n
    | cons c r => simp
  have e5 := runRule_match_all rule_public_ip _ _
    (rule_public_ip_match_quad g1 g2 g3 g4 h1 h2 h3 h4 hpriv) hne
  have e6 : runRule rule_mac "<MASKED_PUBLIC_IP>".toList = "<MASKED_PUBLIC_IP>".toList := by
    decide
  unfold sanitize_output
  rw [show (String.mk (quadChars g1 g2 g3 g4)).toList = quadChars g1 g2 g3 g4 from rfl]
  simp only [applyRules, rules, List.foldl_cons, List.foldl_nil]
  rw [e1, e2, e3, e4, e5, e6]
  rfl

/-- C3 witness: the universal masking instantiated at `8.8.8.8`. -/
theorem public_masking_amended_witness :
    sanitize_output (String.mk (quadChars ['8'] ['8'] ['8'] ['8'])) = "<MASKED_PUBLIC_IP>" :=
  public_masking_amended.1 ['8'] ['8'] ['8'] ['8'] ⟨by decide, by decide, by decide⟩
    ⟨by decide, by decide, by decide⟩ ⟨by decide, by decide, by decide⟩
    ⟨by decide, by decide, by decide⟩ (by decide)
